import Mathlib

/-!
Verification of the Package Export Index subsystem
(`packages/hcc-pf-mcp/src/lib/utils/exportScanner.ts`).

The TypeScript source is shallowly embedded below:

* `ExportKind`, `ExportInfo`, `ExportScanResult` mirror the `ExportInfo` and
  `ExportScanResult` interfaces (the `kind` union and `isDefault` flag).
* `Node` models the observable shape of the TypeScript AST nodes that
  `parseFileExports`'s visitor inspects: for each syntactic class the model
  records exactly the fields the visitor reads (modifier list, declared
  name(s) as produced by `getExportedName`, module specifier, named-export
  clause, and child nodes for the `ts.forEachChild` recursion).
* `visitNode` / `visitList` embed the recursive `visit` closure of
  `parseFileExports`; `parseFileExports` applies it to a source file's
  top-level statements.
* `ExportMap` is an insertion-ordered association list modelling the
  JavaScript `Map` used for `exports`; `insertExport` embeds the insertion
  conditional of `scanPackageExports` (lines 286-292).
* `Cache`, `createCacheKey`, `isCacheValid`, `getFromCache`, `setCache`
  embed the module-level TTL cache; time is passed explicitly as `now`
  (the value of `Date.now()`), and the mutable module map is passed and
  returned explicitly.
* `FileSystem` abstracts `fast-glob` plus `readFile`: `glob` returns either
  the file listing of a directory or a failure cause, `read` returns either
  a file's parsed top-level statements or a read-failure cause (reading and
  syntax-tree construction are fused, since `ts.createSourceFile` itself
  never throws).
* `scanPackageExports` embeds the exported scan function, additionally
  reporting whether the filesystem was touched (`accessedFs`), and
  `findExportSource` the exported lookup function.
-/

namespace ExportScanner

/-- The `kind` union of the `ExportInfo` interface. -/
inductive ExportKind where
  | variable_
  | function
  | class_
  | type
  | interface
  | enum
  | reexport
  | default
deriving DecidableEq, Repr

/-- One discovered export: the `ExportInfo` interface. -/
structure ExportInfo where
  name : String
  filePath : String
  kind : ExportKind
  isDefault : Bool
deriving DecidableEq, Repr

/-- Modifiers of a declaration, as inspected by the visitor
(`ts.SyntaxKind.ExportKeyword` / `ts.SyntaxKind.DefaultKeyword`,
anything else is irrelevant to the scanner). -/
inductive Modifier where
  | exportKeyword
  | defaultKeyword
  | otherModifier
deriving DecidableEq, Repr

/-- The observable shape of the AST nodes that `parseFileExports` inspects.
`declNames` of a variable statement lists, per declaration of the
declaration list, the result of `getExportedName` (`none` when the binding
is not a plain identifier).  For function and class declarations `name`
models `node.name?.text`.  For an export declaration, `moduleSpecifier`
is `some` exactly when the node has a string-literal module specifier, and
`namedExports` is `some` of the element names exactly when the export
clause is a `NamedExports` clause (so `export * from 'm'` has
`namedExports = none`).  `exportAssignment` models a bare
`export default <expr>` statement.  Every node carries its children for the
`ts.forEachChild` recursion. -/
inductive Node where
  | variableStatement (modifiers : List Modifier) (declNames : List (Option String)) (children : List Node)
  | functionDeclaration (modifiers : List Modifier) (name : Option String) (children : List Node)
  | classDeclaration (modifiers : List Modifier) (name : Option String) (children : List Node)
  | interfaceDeclaration (modifiers : List Modifier) (name : String) (children : List Node)
  | typeAliasDeclaration (modifiers : List Modifier) (name : String) (children : List Node)
  | enumDeclaration (modifiers : List Modifier) (name : String) (children : List Node)
  | exportDeclaration (moduleSpecifier : Option String) (namedExports : Option (List String)) (children : List Node)
  | exportAssignment (children : List Node)
  | otherNode (children : List Node)

/-- `modifiers?.some(m => m.kind === k)` for the two modifier kinds the
visitor tests (an absent modifier array is modelled by `[]`). -/
def hasModifier (mods : List Modifier) (m : Modifier) : Bool :=
  mods.any (fun x => x == m)

mutual

/-- The recursive `visit` closure of `parseFileExports`: the records pushed
for the node itself, followed by the records of its children
(`ts.forEachChild(node, visit)`). -/
def visitNode (filePath : String) : Node → List ExportInfo
  | Node.variableStatement mods declNames children =>
      (if hasModifier mods Modifier.exportKeyword then
        declNames.filterMap (fun n =>
          n.map (fun name =>
            ⟨name, filePath, ExportKind.variable_, hasModifier mods Modifier.defaultKeyword⟩))
      else []) ++ visitList filePath children
  | Node.functionDeclaration mods name children =>
      (if hasModifier mods Modifier.exportKeyword then
        (match name with
         | some n => [⟨n, filePath, ExportKind.function, hasModifier mods Modifier.defaultKeyword⟩]
         | none => [])
      else []) ++ visitList filePath children
  | Node.classDeclaration mods name children =>
      (if hasModifier mods Modifier.exportKeyword then
        (match name with
         | some n => [⟨n, filePath, ExportKind.class_, hasModifier mods Modifier.defaultKeyword⟩]
         | none => [])
      else []) ++ visitList filePath children
  | Node.interfaceDeclaration mods name children =>
      (if hasModifier mods Modifier.exportKeyword then
        [⟨name, filePath, ExportKind.interface, false⟩]
      else []) ++ visitList filePath children
  | Node.typeAliasDeclaration mods name children =>
      (if hasModifier mods Modifier.exportKeyword then
        [⟨name, filePath, ExportKind.type, false⟩]
      else []) ++ visitList filePath children
  | Node.enumDeclaration mods name children =>
      (if hasModifier mods Modifier.exportKeyword then
        [⟨name, filePath, ExportKind.enum, false⟩]
      else []) ++ visitList filePath children
  | Node.exportDeclaration moduleSpecifier namedExports children =>
      (match moduleSpecifier, namedExports with
       | some _, some names =>
           names.map (fun n => ⟨n, filePath, ExportKind.reexport, false⟩)
       | _, _ => []) ++ visitList filePath children
  | Node.exportAssignment children => visitList filePath children
  | Node.otherNode children => visitList filePath children

/-- Visiting a list of sibling nodes in order. -/
def visitList (filePath : String) : List Node → List ExportInfo
  | [] => []
  | n :: ns => visitNode filePath n ++ visitList filePath ns

end

/-- `parseFileExports(filePath, sourceText)`: the statements are the
top-level children of the parsed source file, visited in order. -/
def parseFileExports (filePath : String) (statements : List Node) : List ExportInfo :=
  visitList filePath statements

/-- The `exports` JavaScript `Map`, as an insertion-ordered association
list with unique keys. -/
abbrev ExportMap := List (String × ExportInfo)

/-- `Map.prototype.get`. -/
def mapGet (m : ExportMap) (k : String) : Option ExportInfo :=
  match m with
  | [] => none
  | (k', v) :: rest => if k' = k then some v else mapGet rest k

/-- `Map.prototype.set`: replaces the value in place when the key is
present (preserving insertion order), appends otherwise. -/
def mapSet (m : ExportMap) (k : String) (v : ExportInfo) : ExportMap :=
  match m with
  | [] => [(k, v)]
  | (k', v') :: rest => if k' = k then (k, v) :: rest else (k', v') :: mapSet rest k v

/-- The insertion step of `scanPackageExports` for one parsed record
(source lines 286-292): insert when no record exists under the name, or
when the existing record is a re-export and the new one is not; otherwise
leave the map unchanged. -/
def insertExport (exports : ExportMap) (exportInfo : ExportInfo) : ExportMap :=
  match mapGet exports exportInfo.name with
  | none => mapSet exports exportInfo.name exportInfo
  | some existing =>
      if existing.kind = ExportKind.reexport ∧ exportInfo.kind ≠ ExportKind.reexport then
        mapSet exports exportInfo.name exportInfo
      else
        exports

/-- The `ExportScanResult` interface. -/
structure ExportScanResult where
  exports : ExportMap
  errors : List String
deriving DecidableEq, Repr

/-- One candidate source file as the scan loop sees it: its absolute path
and either its parsed top-level statements or the read-failure cause. -/
structure SourceFile where
  path : String
  content : Except String (List Node)

/-- The body of the per-file loop of `scanPackageExports`: on a successful
read, fold the file's parsed records into the map; on a read failure,
append the per-file error string and keep the map unchanged. -/
def processFile (acc : ExportScanResult) (file : SourceFile) : ExportScanResult :=
  match file.content with
  | Except.ok statements =>
      ⟨(parseFileExports file.path statements).foldl insertExport acc.exports, acc.errors⟩
  | Except.error cause =>
      ⟨acc.exports, acc.errors ++ ["Failed to parse " ++ file.path ++ ": " ++ cause]⟩

/-- The whole per-file loop, started from an empty map and empty errors. -/
def scanFiles (files : List SourceFile) : ExportScanResult :=
  files.foldl processFile ⟨[], []⟩

/-- A cache entry: `{ expiresAt, result }`. -/
structure CacheEntry where
  expiresAt : Nat
  result : ExportScanResult
deriving DecidableEq, Repr

/-- The module-level `exportCache` map, passed explicitly. -/
abbrev Cache := List (String × CacheEntry)

/-- `Map.prototype.get` on the cache. -/
def cacheGet (c : Cache) (k : String) : Option CacheEntry :=
  match c with
  | [] => none
  | (k', v) :: rest => if k' = k then some v else cacheGet rest k

/-- `Map.prototype.set` on the cache. -/
def cacheSet (c : Cache) (k : String) (v : CacheEntry) : Cache :=
  match c with
  | [] => [(k, v)]
  | (k', v') :: rest => if k' = k then (k, v) :: rest else (k', v') :: cacheSet rest k v

/-- `Map.prototype.delete` on the cache. -/
def cacheDelete (c : Cache) (k : String) : Cache :=
  match c with
  | [] => []
  | (k', v') :: rest => if k' = k then rest else (k', v') :: cacheDelete rest k

/-- `CACHE_TTL_MS = 5 * 60 * 1000`. -/
def CACHE_TTL_MS : Nat := 5 * 60 * 1000

/-- `createCacheKey`. -/
def createCacheKey (packageRoot : String) : String :=
  "exports::" ++ packageRoot

/-- `isCacheValid`: `cacheEntry.expiresAt > Date.now()`. -/
def isCacheValid (now : Nat) (cacheEntry : CacheEntry) : Bool :=
  decide (cacheEntry.expiresAt > now)

/-- `getFromCache`: returns the cached result on a valid hit (leaving the
cache untouched); otherwise deletes the key and returns nothing.  The
updated cache is returned alongside. -/
def getFromCache (c : Cache) (now : Nat) (packageRoot : String) : Option ExportScanResult × Cache :=
  let cacheKey := createCacheKey packageRoot
  match cacheGet c cacheKey with
  | some cached =>
      if isCacheValid now cached then (some cached.result, c)
      else (none, cacheDelete c cacheKey)
  | none => (none, cacheDelete c cacheKey)

/-- `setCache`: stores the result under the cache key with
`expiresAt = Date.now() + CACHE_TTL_MS`. -/
def setCache (c : Cache) (now : Nat) (packageRoot : String) (result : ExportScanResult) : Cache :=
  cacheSet c (createCacheKey packageRoot) ⟨now + CACHE_TTL_MS, result⟩

/-- The filesystem as the scanner observes it: `glob` is `fast-glob` over a
directory (succeeding with a path listing or failing with a cause), `read`
is `readFile` fused with `ts.createSourceFile` (succeeding with the file's
top-level statements or failing with a read cause). -/
structure FileSystem where
  glob : String → Except String (List String)
  read : String → Except String (List Node)

/-- `collectSourceFiles`: returns the glob listing, and swallows a glob
failure into an empty listing (the `catch` branch returns `[]`). -/
def collectSourceFiles (fsys : FileSystem) (srcDir : String) : List String :=
  match fsys.glob srcDir with
  | Except.ok files => files
  | Except.error _ => []

/-- The value returned by one call of `scanPackageExports` together with
the cache state after the call and whether the filesystem was accessed. -/
structure ScanOutcome where
  result : ExportScanResult
  cache : Cache
  accessedFs : Bool
deriving Repr

/-- `scanPackageExports`: consult the cache; on a hit return immediately;
on a miss glob `<packageRoot>/src`, run the per-file loop, store the result
in the cache with the full TTL, and return it.  Nothing inside the outer
`try` can throw in this model, exactly as in the source: `collectSourceFiles`
catches its own failure and the per-file `try` catches read failures, so the
outer `catch` (which would push `"Failed to scan src directory: ..."`) is
unreachable. -/
def scanPackageExports (fsys : FileSystem) (now : Nat) (cache : Cache) (packageRoot : String) : ScanOutcome :=
  match getFromCache cache now packageRoot with
  | (some cached, cache') => ⟨cached, cache', false⟩
  | (none, cache') =>
      let srcDir := packageRoot ++ "/src"
      let files := collectSourceFiles fsys srcDir
      let result := scanFiles (files.map (fun p => ⟨p, fsys.read p⟩))
      ⟨result, setCache cache' now packageRoot result, true⟩

/-- `findExportSource`: scan (or hit the cache), then look the name up. -/
def findExportSource (fsys : FileSystem) (now : Nat) (cache : Cache) (packageRoot exportName : String) : Option ExportInfo × Cache :=
  let outcome := scanPackageExports fsys now cache packageRoot
  (mapGet outcome.result.exports exportName, outcome.cache)

/-- `clearExportCache`. -/
def clearExportCache (_c : Cache) : Cache := []

/-- Auxiliary view of the per-file loop: the records one file contributes
(none when its read failed). -/
def fileRecords (file : SourceFile) : List ExportInfo :=
  match file.content with
  | Except.ok statements => parseFileExports file.path statements
  | Except.error _ => []

/-- Auxiliary view of the per-file loop: the error entries one file
contributes (one when its read failed, none otherwise). -/
def fileErrors (file : SourceFile) : List String :=
  match file.content with
  | Except.ok _ => []
  | Except.error cause => ["Failed to parse " ++ file.path ++ ": " ++ cause]

/-- The result computed by a cache-missing `scanPackageExports` call:
glob the src directory, read and parse every listed file, fold the records
into the index. -/
def freshScan (fsys : FileSystem) (packageRoot : String) : ExportScanResult :=
  scanFiles ((collectSourceFiles fsys (packageRoot ++ "/src")).map (fun p => ⟨p, fsys.read p⟩))

/-- A source file consisting of one exported declaration each of a
variable, a function, a class, an interface, a type alias and an enum. -/
def sixKindsFile (n1 n2 n3 n4 n5 n6 : String) : List Node :=
  [Node.variableStatement [Modifier.exportKeyword] [some n1] [],
   Node.functionDeclaration [Modifier.exportKeyword] (some n2) [],
   Node.classDeclaration [Modifier.exportKeyword] (some n3) [],
   Node.interfaceDeclaration [Modifier.exportKeyword] n4 [],
   Node.typeAliasDeclaration [Modifier.exportKeyword] n5 [],
   Node.enumDeclaration [Modifier.exportKeyword] n6 []]

/-- The six records expected from `sixKindsFile`. -/
def sixKindsRecords (filePath n1 n2 n3 n4 n5 n6 : String) : List ExportInfo :=
  [⟨n1, filePath, ExportKind.variable_, false⟩,
   ⟨n2, filePath, ExportKind.function, false⟩,
   ⟨n3, filePath, ExportKind.class_, false⟩,
   ⟨n4, filePath, ExportKind.interface, false⟩,
   ⟨n5, filePath, ExportKind.type, false⟩,
   ⟨n6, filePath, ExportKind.enum, false⟩]

/-- A filesystem on which globbing (and reading) always fails: the package
has no readable src tree. -/
def missingSrcFs : FileSystem :=
  ⟨fun _ => Except.error "Error: ENOENT: no such file or directory",
   fun _ => Except.error "Error: ENOENT: no such file or directory"⟩

/-- Statements of a file defining `export const Button = ...`. -/
def buttonDefFile : List Node :=
  [Node.variableStatement [Modifier.exportKeyword] [some "Button"] []]

/-- Statements of a barrel file containing
`export { Button } from './Button'`. -/
def buttonBarrelFile : List Node :=
  [Node.exportDeclaration (some "./Button") (some ["Button"]) []]

/-- Reads for the Button package: the defining file and the barrel file. -/
def buttonRead (p : String) : Except String (List Node) :=
  if p = "/pkg/src/Button.tsx" then Except.ok buttonDefFile
  else if p = "/pkg/src/index.ts" then Except.ok buttonBarrelFile
  else Except.error "ENOENT"

/-- The Button package with the barrel file listed before the defining
file. -/
def buttonFsBarrelFirst : FileSystem :=
  ⟨fun _ => Except.ok ["/pkg/src/index.ts", "/pkg/src/Button.tsx"], buttonRead⟩

/-- The Button package with the defining file listed before the barrel
file. -/
def buttonFsDefFirst : FileSystem :=
  ⟨fun _ => Except.ok ["/pkg/src/Button.tsx", "/pkg/src/index.ts"], buttonRead⟩

/-- The record invariants of the parser: no record carries the `default`
kind, and records of kind `interface`, `type`, `enum` or `reexport` never
carry the default flag. -/
def soundRecord (r : ExportInfo) : Prop :=
  r.kind ≠ ExportKind.default ∧
  ((r.kind = ExportKind.interface ∨ r.kind = ExportKind.type ∨
    r.kind = ExportKind.enum ∨ r.kind = ExportKind.reexport) → r.isDefault = false)

/-! ### Association-map lemmas -/

theorem mapGet_mapSet_self (m : ExportMap) (k : String) (v : ExportInfo) :
    mapGet (mapSet m k v) k = some v := by
  induction m with
  | nil => simp [mapGet, mapSet]
  | cons hd tl ih =>
      obtain ⟨k', v'⟩ := hd
      by_cases h : k' = k
      · simp [mapSet, h, mapGet]
      · simp [mapSet, h, mapGet, ih]

theorem mapGet_mapSet_ne (m : ExportMap) (k n : String) (v : ExportInfo)
    (h : n ≠ k) : mapGet (mapSet m k v) n = mapGet m n := by
  induction m with
  | nil => simp [mapGet, mapSet, Ne.symm h]
  | cons hd tl ih =>
      obtain ⟨k', v'⟩ := hd
      by_cases hk : k' = k
      · subst hk
        simp [mapSet, mapGet, Ne.symm h]
      · simp only [mapSet, if_neg hk, mapGet]
        by_cases hn : k' = n
        · simp [hn]
        · simp [hn, ih]

theorem cacheGet_cacheSet_self (c : Cache) (k : String) (v : CacheEntry) :
    cacheGet (cacheSet c k v) k = some v := by
  induction c with
  | nil => simp [cacheGet, cacheSet]
  | cons hd tl ih =>
      obtain ⟨k', v'⟩ := hd
      by_cases h : k' = k
      · simp [cacheSet, h, cacheGet]
      · simp [cacheSet, h, cacheGet, ih]

theorem cacheGet_eq_none_of_not_mem (c : Cache) (k : String)
    (h : k ∉ c.map Prod.fst) : cacheGet c k = none := by
  induction c with
  | nil => rfl
  | cons hd tl ih =>
      obtain ⟨k', v'⟩ := hd
      simp only [List.map_cons, List.mem_cons] at h
      push_neg at h
      simp [cacheGet, Ne.symm h.1, ih h.2]

theorem cacheGet_cacheDelete_self (c : Cache) (k : String)
    (h : (c.map Prod.fst).Nodup) : cacheGet (cacheDelete c k) k = none := by
  induction c with
  | nil => rfl
  | cons hd tl ih =>
      obtain ⟨k', v'⟩ := hd
      simp only [List.map_cons, List.nodup_cons] at h
      by_cases hk : k' = k
      · subst hk
        simpa [cacheDelete] using cacheGet_eq_none_of_not_mem tl k' h.1
      · simp [cacheDelete, hk, cacheGet, ih h.2]

/-! ### Visitor lemmas -/

theorem visitList_append (filePath : String) (l₁ l₂ : List Node) :
    visitList filePath (l₁ ++ l₂) = visitList filePath l₁ ++ visitList filePath l₂ := by
  induction l₁ with
  | nil => simp [visitList]
  | cons n ns ih => simp [visitList, ih, List.append_assoc]

theorem visitList_perm (filePath : String) {l₁ l₂ : List Node} (h : l₁.Perm l₂) :
    (visitList filePath l₁).Perm (visitList filePath l₂) := by
  induction h with
  | nil => exact List.Perm.refl _
  | cons x _ ih =>
      simp only [visitList]
      exact List.Perm.append_left _ ih
  | swap x y l =>
      simp only [visitList, ← List.append_assoc]
      exact List.Perm.append List.perm_append_comm (List.Perm.refl _)
  | trans _ _ ih₁ ih₂ => exact ih₁.trans ih₂

/-! ### Index-builder lemmas -/

theorem insertExport_of_not_found {m : ExportMap} {r : ExportInfo}
    (h : mapGet m r.name = none) : insertExport m r = mapSet m r.name r := by
  simp [insertExport, h]

theorem insertExport_of_override {m : ExportMap} {r e : ExportInfo}
    (h : mapGet m r.name = some e) (he : e.kind = ExportKind.reexport)
    (hr : r.kind ≠ ExportKind.reexport) : insertExport m r = mapSet m r.name r := by
  simp [insertExport, h, he, hr]

theorem insertExport_of_skip {m : ExportMap} {r e : ExportInfo}
    (h : mapGet m r.name = some e)
    (hk : e.kind ≠ ExportKind.reexport ∨ r.kind = ExportKind.reexport) :
    insertExport m r = m := by
  have hcond : ¬(e.kind = ExportKind.reexport ∧ r.kind ≠ ExportKind.reexport) := by
    rcases hk with hk | hk
    · exact fun hc => hk hc.1
    · exact fun hc => hc.2 hk
  simp [insertExport, h, hcond]

theorem mapGet_insertExport_ne {n : String} (m : ExportMap) (r : ExportInfo)
    (h : r.name ≠ n) : mapGet (insertExport m r) n = mapGet m n := by
  unfold insertExport
  cases hg : mapGet m r.name with
  | none => exact mapGet_mapSet_ne m r.name n r (Ne.symm h)
  | some e =>
      by_cases hc : e.kind = ExportKind.reexport ∧ r.kind ≠ ExportKind.reexport
      · simp only [if_pos hc]
        exact mapGet_mapSet_ne m r.name n r (Ne.symm h)
      · simp only [if_neg hc]

theorem mapGet_insertExport_keeps {m : ExportMap} {n : String} {e : ExportInfo}
    (hget : mapGet m n = some e) (hkind : e.kind ≠ ExportKind.reexport)
    (r : ExportInfo) : mapGet (insertExport m r) n = some e := by
  by_cases hn : r.name = n
  · have hg : mapGet m r.name = some e := by rw [hn]; exact hget
    rw [insertExport_of_skip hg (Or.inl hkind)]
    exact hget
  · rw [mapGet_insertExport_ne m r hn]
    exact hget

theorem foldl_insertExport_keeps {n : String} {e : ExportInfo}
    (hkind : e.kind ≠ ExportKind.reexport) :
    ∀ (rs : List ExportInfo) (m : ExportMap), mapGet m n = some e →
      mapGet (rs.foldl insertExport m) n = some e := by
  intro rs
  induction rs with
  | nil => intro m h; simpa using h
  | cons r rs ih =>
      intro m h
      exact ih _ (mapGet_insertExport_keeps h hkind r)

theorem foldl_insertExport_attain {n : String} :
    ∀ (rs : List ExportInfo) (m : ExportMap),
      (mapGet m n = none ∨ ∃ e, mapGet m n = some e ∧ e.kind = ExportKind.reexport) →
      (∃ r ∈ rs, r.name = n ∧ r.kind ≠ ExportKind.reexport) →
      ∃ r', mapGet (rs.foldl insertExport m) n = some r' ∧
        r'.kind ≠ ExportKind.reexport ∧ r'.name = n := by
  intro rs
  induction rs with
  | nil =>
      intro m _ hex
      rcases hex with ⟨r, hmem, _⟩
      cases hmem
  | cons r rs ih =>
      intro m hm hex
      by_cases hcase : r.name = n ∧ r.kind ≠ ExportKind.reexport
      · obtain ⟨hname, hkind⟩ := hcase
        have hset : mapGet (insertExport m r) n = some r := by
          rcases hm with hnone | ⟨e, hsome, hre⟩
          · rw [insertExport_of_not_found (by rw [hname]; exact hnone), hname]
            exact mapGet_mapSet_self m n r
          · rw [insertExport_of_override (by rw [hname]; exact hsome) hre hkind, hname]
            exact mapGet_mapSet_self m n r
        exact ⟨r, foldl_insertExport_keeps hkind rs _ hset, hkind, hname⟩
      · rcases hex with ⟨r0, hmem, hr0name, hr0kind⟩
        rcases List.mem_cons.mp hmem with heq | hmem'
        · exact absurd ⟨heq ▸ hr0name, heq ▸ hr0kind⟩ hcase
        · have hinv : mapGet (insertExport m r) n = none ∨
              ∃ e, mapGet (insertExport m r) n = some e ∧ e.kind = ExportKind.reexport := by
            by_cases hn : r.name = n
            · have hre : r.kind = ExportKind.reexport := by
                by_contra hc
                exact hcase ⟨hn, hc⟩
              rcases hm with hnone | ⟨e, hsome, here⟩
              · refine Or.inr ⟨r, ?_, hre⟩
                rw [insertExport_of_not_found (by rw [hn]; exact hnone), hn]
                exact mapGet_mapSet_self m n r
              · refine Or.inr ⟨e, ?_, here⟩
                rw [insertExport_of_skip (by rw [hn]; exact hsome) (Or.inr hre)]
                exact hsome
            · rcases hm with hnone | ⟨e, hsome, here⟩
              · exact Or.inl (by rw [mapGet_insertExport_ne m r hn]; exact hnone)
              · exact Or.inr ⟨e, by rw [mapGet_insertExport_ne m r hn]; exact hsome, here⟩
          exact ih (insertExport m r) hinv ⟨r0, hmem', hr0name, hr0kind⟩

/-! ### Scan-loop decomposition -/

theorem foldl_processFile_eq :
    ∀ (files : List SourceFile) (acc : ExportScanResult),
      files.foldl processFile acc =
        ⟨(files.flatMap fileRecords).foldl insertExport acc.exports,
         acc.errors ++ files.flatMap fileErrors⟩ := by
  intro files
  induction files with
  | nil => intro acc; simp
  | cons f fs ih =>
      intro acc
      cases hc : f.content with
      | ok statements =>
          simp [List.foldl_cons, ih, processFile, fileRecords, fileErrors, hc,
            List.flatMap_cons, List.foldl_append]
      | error cause =>
          simp [List.foldl_cons, ih, processFile, fileRecords, fileErrors, hc,
            List.flatMap_cons]

theorem scanFiles_eq (files : List SourceFile) :
    scanFiles files =
      ⟨(files.flatMap fileRecords).foldl insertExport [], files.flatMap fileErrors⟩ := by
  simpa [scanFiles] using foldl_processFile_eq files ⟨[], []⟩

theorem flatMap_fileErrors_eq_nil :
    ∀ (files : List SourceFile),
      (∀ f ∈ files, ∃ statements, f.content = Except.ok statements) →
      files.flatMap fileErrors = [] := by
  intro files
  induction files with
  | nil => intro _; rfl
  | cons f fs ih =>
      intro h
      obtain ⟨statements, hst⟩ := h f (List.mem_cons_self f fs)
      simp [List.flatMap_cons, fileErrors, hst,
        ih (fun g hg => h g (List.mem_cons_of_mem f hg))]

/-! ### Cache and scan control-flow lemmas -/

theorem getFromCache_of_valid {c : Cache} {now : Nat} {packageRoot : String}
    {e : CacheEntry} (h : cacheGet c (createCacheKey packageRoot) = some e)
    (hv : now < e.expiresAt) :
    getFromCache c now packageRoot = (some e.result, c) := by
  simp [getFromCache, h, isCacheValid, hv]

theorem getFromCache_of_expired {c : Cache} {now : Nat} {packageRoot : String}
    {e : CacheEntry} (h : cacheGet c (createCacheKey packageRoot) = some e)
    (hv : e.expiresAt ≤ now) :
    getFromCache c now packageRoot = (none, cacheDelete c (createCacheKey packageRoot)) := by
  simp [getFromCache, h, isCacheValid, Nat.not_lt.mpr hv]

theorem getFromCache_of_absent {c : Cache} {now : Nat} {packageRoot : String}
    (h : cacheGet c (createCacheKey packageRoot) = none) :
    getFromCache c now packageRoot = (none, cacheDelete c (createCacheKey packageRoot)) := by
  simp [getFromCache, h]

theorem scanPackageExports_hit {fsys : FileSystem} {now : Nat} {cache : Cache}
    {packageRoot : String} {e : CacheEntry}
    (h : cacheGet cache (createCacheKey packageRoot) = some e)
    (hv : now < e.expiresAt) :
    scanPackageExports fsys now cache packageRoot = ⟨e.result, cache, false⟩ := by
  unfold scanPackageExports
  rw [getFromCache_of_valid h hv]

theorem scanPackageExports_of_miss {fsys : FileSystem} {now : Nat} {cache : Cache}
    {packageRoot : String}
    (hmiss : (getFromCache cache now packageRoot).1 = none) :
    scanPackageExports fsys now cache packageRoot =
      ⟨freshScan fsys packageRoot,
       setCache (getFromCache cache now packageRoot).2 now packageRoot
         (freshScan fsys packageRoot),
       true⟩ := by
  rcases hg : getFromCache cache now packageRoot with ⟨o, c'⟩
  rw [hg] at hmiss
  simp only at hmiss
  subst hmiss
  unfold scanPackageExports
  rw [hg]
  rfl

/-! ### Parser record invariants -/

mutual

theorem visitNode_sound (filePath : String) (r : ExportInfo) :
    ∀ (node : Node), r ∈ visitNode filePath node → soundRecord r
  | Node.variableStatement mods declNames children => fun h => by
      simp only [visitNode] at h
      rcases List.mem_append.mp h with h1 | h2
      · split at h1
        · rcases List.mem_filterMap.mp h1 with ⟨o, _, hmap⟩
          cases o with
          | none => simp at hmap
          | some nm =>
              simp only [Option.map_some'] at hmap
              cases hmap
              simp [soundRecord]
        · cases h1
      · exact visitList_sound filePath r children h2
  | Node.functionDeclaration mods name children => fun h => by
      simp only [visitNode] at h
      rcases List.mem_append.mp h with h1 | h2
      · split at h1
        · cases name with
          | some n =>
              cases List.mem_singleton.mp h1
              simp [soundRecord]
          | none => cases h1
        · cases h1
      · exact visitList_sound filePath r children h2
  | Node.classDeclaration mods name children => fun h => by
      simp only [visitNode] at h
      rcases List.mem_append.mp h with h1 | h2
      · split at h1
        · cases name with
          | some n =>
              cases List.mem_singleton.mp h1
              simp [soundRecord]
          | none => cases h1
        · cases h1
      · exact visitList_sound filePath r children h2
  | Node.interfaceDeclaration mods name children => fun h => by
      simp only [visitNode] at h
      rcases List.mem_append.mp h with h1 | h2
      · split at h1
        · cases List.mem_singleton.mp h1
          simp [soundRecord]
        · cases h1
      · exact visitList_sound filePath r children h2
  | Node.typeAliasDeclaration mods name children => fun h => by
      simp only [visitNode] at h
      rcases List.mem_append.mp h with h1 | h2
      · split at h1
        · cases List.mem_singleton.mp h1
          simp [soundRecord]
        · cases h1
      · exact visitList_sound filePath r children h2
  | Node.enumDeclaration mods name children => fun h => by
      simp only [visitNode] at h
      rcases List.mem_append.mp h with h1 | h2
      · split at h1
        · cases List.mem_singleton.mp h1
          simp [soundRecord]
        · cases h1
      · exact visitList_sound filePath r children h2
  | Node.exportDeclaration moduleSpecifier namedExports children => fun h => by
      simp only [visitNode] at h
      rcases List.mem_append.mp h with h1 | h2
      · cases moduleSpecifier with
        | some m =>
            cases namedExports with
            | some names =>
                rcases List.mem_map.mp h1 with ⟨nm, _, hmap⟩
                cases hmap
                simp [soundRecord]
            | none => cases h1
        | none =>
            cases namedExports with
            | some names => cases h1
            | none => cases h1
      · exact visitList_sound filePath r children h2
  | Node.exportAssignment children => fun h => by
      simp only [visitNode] at h
      exact visitList_sound filePath r children h
  | Node.otherNode children => fun h => by
      simp only [visitNode] at h
      exact visitList_sound filePath r children h

theorem visitList_sound (filePath : String) (r : ExportInfo) :
    ∀ (l : List Node), r ∈ visitList filePath l → soundRecord r
  | [] => fun h => by cases h
  | n :: ns => fun h => by
      simp only [visitList] at h
      rcases List.mem_append.mp h with h1 | h2
      · exact visitNode_sound filePath r n h1
      · exact visitList_sound filePath r ns h2

end

/-! ### Claim theorems -/

/-- Claim C1, counterexample.  The claim asserts overwrite-by-default
semantics: on a name collision of two non-reexport records (or two
reexport records) the later record should overwrite the earlier one, so
within a single file the last declaration wins.  The code skips the insert
in both situations: a file declaring `export const A` and then
`export function A` leaves the earlier `variable` record in the index,
and two re-export files for the same name leave the earlier re-export
record in the index. -/
theorem insertExport_last_wins_counterexample :
    (scanFiles [⟨"/f.ts", Except.ok
        [Node.variableStatement [Modifier.exportKeyword] [some "A"] [],
         Node.functionDeclaration [Modifier.exportKeyword] (some "A") []]⟩]).exports =
      [("A", ⟨"A", "/f.ts", ExportKind.variable_, false⟩)] ∧
    (⟨"A", "/f.ts", ExportKind.variable_, false⟩ : ExportInfo).kind ≠ ExportKind.function ∧
    (scanFiles [⟨"/i1.ts", Except.ok [Node.exportDeclaration (some "./a") (some ["B"]) []]⟩,
                ⟨"/i2.ts", Except.ok [Node.exportDeclaration (some "./b") (some ["B"]) []]⟩]).exports =
      [("B", ⟨"B", "/i1.ts", ExportKind.reexport, false⟩)] ∧
    ("/i1.ts" : String) ≠ "/i2.ts" := by
  decide

/-- Claim C1, amended.  Each record is inserted into the mapping under its
name only when no record is present for that name, or when the present
record is a re-export and the new record is not; in every other case
(two non-reexport records with the same name, two re-export records with
the same name, or a re-export arriving after a non-reexport) the insert is
skipped, so on a name collision the earliest applicable record wins — in
particular the first non-reexport record for a name is never displaced. -/
theorem insertExport_first_wins (m : ExportMap) (r e : ExportInfo)
    (rs : List ExportInfo) :
    (mapGet m r.name = none → insertExport m r = mapSet m r.name r) ∧
    (mapGet m r.name = some e → e.kind = ExportKind.reexport →
      r.kind ≠ ExportKind.reexport → insertExport m r = mapSet m r.name r) ∧
    (mapGet m r.name = some e →
      (e.kind ≠ ExportKind.reexport ∨ r.kind = ExportKind.reexport) →
      insertExport m r = m) ∧
    (r.kind ≠ ExportKind.reexport →
      mapGet ((r :: rs).foldl insertExport []) r.name = some r) := by
  refine ⟨fun h => insertExport_of_not_found h,
          fun h he hr => insertExport_of_override h he hr,
          fun h hk => insertExport_of_skip h hk,
          fun hk => ?_⟩
  have hbase : mapGet (insertExport [] r) r.name = some r := by
    have h0 : mapGet ([] : ExportMap) r.name = none := rfl
    rw [insertExport_of_not_found h0]
    exact mapGet_mapSet_self [] r.name r
  simpa using foldl_insertExport_keeps hk rs _ hbase

/-- Witness for the amended C1 theorem at a concrete collision: a later
`function` record for the name of an existing `variable` record is
skipped. -/
theorem insertExport_first_wins_witness :
    insertExport [("A", ⟨"A", "/f1.ts", ExportKind.variable_, false⟩)]
        ⟨"A", "/f2.ts", ExportKind.function, false⟩ =
      [("A", ⟨"A", "/f1.ts", ExportKind.variable_, false⟩)] :=
  (insertExport_first_wins [("A", ⟨"A", "/f1.ts", ExportKind.variable_, false⟩)]
      ⟨"A", "/f2.ts", ExportKind.function, false⟩
      ⟨"A", "/f1.ts", ExportKind.variable_, false⟩ []).2.2.1 rfl (Or.inl (by decide))

/-- Claim C2, counterexample.  When the src directory cannot be read the
claim predicts an errors sequence with exactly one
`"Failed to scan src directory: <cause>"` entry; the code's collector
swallows the glob failure into an empty file listing, so the returned
index has an empty exports mapping and an EMPTY errors sequence. -/
theorem scanPackageExports_missing_src_counterexample :
    (scanPackageExports missingSrcFs 0 [] "/pkg").result = ⟨[], []⟩ ∧
    (scanPackageExports missingSrcFs 0 [] "/pkg").result.errors.length ≠ 1 := by
  decide

/-- Claim C2, amended.  If the package's src directory does not exist or
cannot be read, a cache-missing `scanPackageExports` call returns an index
with an empty exports mapping and an empty errors sequence, and does not
raise; moreover every error the per-file loop ever records is a
`"Failed to parse <path>: <cause>"` entry, so no
`"Failed to scan src directory: ..."` entry is ever produced. -/
theorem scanPackageExports_missing_src (fsys : FileSystem) (now : Nat)
    (cache : Cache) (packageRoot msg : String)
    (hmiss : (getFromCache cache now packageRoot).1 = none)
    (hglob : fsys.glob (packageRoot ++ "/src") = Except.error msg) :
    (scanPackageExports fsys now cache packageRoot).result = ⟨[], []⟩ ∧
    ∀ (files : List SourceFile) (err : String), err ∈ (scanFiles files).errors →
      ∃ fp cause, err = "Failed to parse " ++ fp ++ ": " ++ cause := by
  constructor
  · rw [scanPackageExports_of_miss hmiss]
    simp only
    unfold freshScan collectSourceFiles
    rw [hglob]
    rfl
  · intro files err herr
    rw [scanFiles_eq] at herr
    simp only at herr
    rcases List.mem_flatMap.mp herr with ⟨f, _, hf⟩
    cases hc : f.content with
    | ok statements => simp [fileErrors, hc] at hf
    | error cause =>
        simp only [fileErrors, hc, List.mem_singleton] at hf
        exact ⟨f.path, cause, hf⟩

/-- Witness for the amended C2 theorem: on a filesystem whose glob fails,
the scan returns the empty, error-free index. -/
theorem scanPackageExports_missing_src_witness :
    (scanPackageExports missingSrcFs 5 [] "/pkg").result = ⟨[], []⟩ :=
  (scanPackageExports_missing_src missingSrcFs 5 [] "/pkg"
      "Error: ENOENT: no such file or directory" rfl rfl).1

/-- Claim C3: whenever some scanned file contributes a non-reexport record
for a name, `findExportSource` resolves that name to a non-reexport record,
regardless of the order in which the collector lists the files; in the
concrete Button scenario (one file defining `export const Button`, one
barrel file re-exporting it) the lookup returns the defining file's
`variable` record in either processing order. -/
theorem findExportSource_prefers_definition
    (fsys : FileSystem) (now : Nat) (packageRoot exportName p : String)
    (statements : List Node) (r : ExportInfo)
    (hp : p ∈ collectSourceFiles fsys (packageRoot ++ "/src"))
    (hread : fsys.read p = Except.ok statements)
    (hr : r ∈ parseFileExports p statements)
    (hname : r.name = exportName) (hkind : r.kind ≠ ExportKind.reexport) :
    (∃ r', (findExportSource fsys now [] packageRoot exportName).1 = some r' ∧
        r'.kind ≠ ExportKind.reexport ∧ r'.name = exportName) ∧
    (findExportSource buttonFsBarrelFirst 0 [] "/pkg" "Button").1 =
      some ⟨"Button", "/pkg/src/Button.tsx", ExportKind.variable_, false⟩ ∧
    (findExportSource buttonFsDefFirst 0 [] "/pkg" "Button").1 =
      some ⟨"Button", "/pkg/src/Button.tsx", ExportKind.variable_, false⟩ := by
  refine ⟨?_, by decide, by decide⟩
  have hmiss : (getFromCache ([] : Cache) now packageRoot).1 = none := rfl
  have hscan : scanPackageExports fsys now [] packageRoot =
      ⟨freshScan fsys packageRoot,
       setCache (getFromCache ([] : Cache) now packageRoot).2 now packageRoot
         (freshScan fsys packageRoot), true⟩ := scanPackageExports_of_miss hmiss
  have hfind : (findExportSource fsys now [] packageRoot exportName).1 =
      mapGet (freshScan fsys packageRoot).exports exportName := by
    simp [findExportSource, hscan]
  rw [hfind, freshScan, scanFiles_eq]
  simp only
  apply foldl_insertExport_attain _ [] (Or.inl rfl)
  refine ⟨r, ?_, hname, hkind⟩
  apply List.mem_flatMap.mpr
  refine ⟨⟨p, fsys.read p⟩, List.mem_map.mpr ⟨p, hp, rfl⟩, ?_⟩
  simp only [fileRecords, hread]
  exact hr

/-- Witness for C3 in the order that exercises the resolution rule: the
barrel file is processed first, yet the lookup returns a non-reexport
record. -/
theorem findExportSource_prefers_definition_witness :
    ∃ r', (findExportSource buttonFsBarrelFirst 0 [] "/pkg" "Button").1 = some r' ∧
      r'.kind ≠ ExportKind.reexport ∧ r'.name = "Button" :=
  (findExportSource_prefers_definition buttonFsBarrelFirst 0 "/pkg" "Button"
      "/pkg/src/Button.tsx" buttonDefFile
      ⟨"Button", "/pkg/src/Button.tsx", ExportKind.variable_, false⟩
      (by decide) rfl (by decide) rfl (by decide)).1

/-- Claim C4: a cache-missing `scanPackageExports` call touches the
filesystem, and a second call for the same package root at any later time
strictly inside the 5-minute TTL window returns the identical result, the
identical cache, and performs no filesystem access. -/
theorem scanPackageExports_cached_within_ttl
    (fsys : FileSystem) (now later : Nat) (cache : Cache) (packageRoot : String)
    (hmiss : (getFromCache cache now packageRoot).1 = none)
    (hle : now ≤ later) (hlt : later < now + CACHE_TTL_MS) :
    (scanPackageExports fsys now cache packageRoot).accessedFs = true ∧
    scanPackageExports fsys later
        (scanPackageExports fsys now cache packageRoot).cache packageRoot =
      ⟨(scanPackageExports fsys now cache packageRoot).result,
       (scanPackageExports fsys now cache packageRoot).cache, false⟩ := by
  rw [scanPackageExports_of_miss hmiss]
  exact ⟨rfl, scanPackageExports_hit (cacheGet_cacheSet_self _ _ _) hlt⟩

/-- Witness for C4 on the concrete Button package at times 0 and 1. -/
theorem scanPackageExports_cached_within_ttl_witness :
    (scanPackageExports buttonFsDefFirst 0 [] "/pkg").accessedFs = true ∧
    scanPackageExports buttonFsDefFirst 1
        (scanPackageExports buttonFsDefFirst 0 [] "/pkg").cache "/pkg" =
      ⟨(scanPackageExports buttonFsDefFirst 0 [] "/pkg").result,
       (scanPackageExports buttonFsDefFirst 0 [] "/pkg").cache, false⟩ :=
  scanPackageExports_cached_within_ttl buttonFsDefFirst 0 1 [] "/pkg" rfl
    (by decide) (by decide)

/-- Claim C5: `setCache` stores an entry expiring exactly `CACHE_TTL_MS`
(five minutes, 300000 ms) after the current time, overwriting any existing
entry for the root; `getFromCache` returns the cached result exactly when
an entry is present and the current time is strictly before `expiresAt`
(leaving the cache untouched), and otherwise reports absence and evicts
the entry. -/
theorem cache_put_get_contract (c : Cache) (now t : Nat) (packageRoot : String)
    (result : ExportScanResult) :
    CACHE_TTL_MS = 5 * 60 * 1000 ∧
    cacheGet (setCache c now packageRoot result) (createCacheKey packageRoot) =
      some ⟨now + CACHE_TTL_MS, result⟩ ∧
    (∀ e, cacheGet c (createCacheKey packageRoot) = some e → t < e.expiresAt →
        getFromCache c t packageRoot = (some e.result, c)) ∧
    (∀ e, cacheGet c (createCacheKey packageRoot) = some e → e.expiresAt ≤ t →
        (getFromCache c t packageRoot).1 = none ∧
        ((c.map Prod.fst).Nodup →
          cacheGet (getFromCache c t packageRoot).2 (createCacheKey packageRoot) = none)) ∧
    (cacheGet c (createCacheKey packageRoot) = none →
        (getFromCache c t packageRoot).1 = none) := by
  refine ⟨rfl, cacheGet_cacheSet_self c _ _, ?_, ?_, ?_⟩
  · intro e he hv
    exact getFromCache_of_valid he hv
  · intro e he hv
    rw [getFromCache_of_expired he hv]
    exact ⟨rfl, fun hnd => cacheGet_cacheDelete_self c _ hnd⟩
  · intro h
    rw [getFromCache_of_absent h]

/-- Witness for C5: a concrete valid hit returns the stored result and
leaves the cache unchanged. -/
theorem cache_put_get_contract_witness :
    getFromCache [("exports::/pkg", (⟨7, ⟨[], []⟩⟩ : CacheEntry))] 3 "/pkg" =
      (some (⟨[], []⟩ : ExportScanResult),
       [("exports::/pkg", (⟨7, ⟨[], []⟩⟩ : CacheEntry))]) :=
  (cache_put_get_contract [("exports::/pkg", ⟨7, ⟨[], []⟩⟩)] 0 3 "/pkg" ⟨[], []⟩).2.2.1
    ⟨7, ⟨[], []⟩⟩ rfl (by decide)

/-- Claim C6: if exactly one file in the listing fails to read, the scan
does not abort — the resulting index equals the index obtained from the
remaining files alone, and the errors sequence is exactly the single
`"Failed to parse <path>: <cause>"` entry for the failing file (a scan of
the remaining files alone records no errors). -/
theorem scanFiles_one_unreadable_file (pre post : List SourceFile)
    (badPath cause : String)
    (hok : ∀ f ∈ pre ++ post, ∃ statements, f.content = Except.ok statements) :
    scanFiles (pre ++ (⟨badPath, Except.error cause⟩ : SourceFile) :: post) =
      ⟨(scanFiles (pre ++ post)).exports,
       ["Failed to parse " ++ badPath ++ ": " ++ cause]⟩ ∧
    (scanFiles (pre ++ post)).errors = [] := by
  have herr := flatMap_fileErrors_eq_nil (pre ++ post) hok
  rw [List.flatMap_append] at herr
  have hpre : pre.flatMap fileErrors = [] := (List.append_eq_nil.mp herr).1
  have hpost : post.flatMap fileErrors = [] := (List.append_eq_nil.mp herr).2
  have h1 : (pre ++ (⟨badPath, Except.error cause⟩ : SourceFile) :: post).flatMap fileRecords =
      (pre ++ post).flatMap fileRecords := by
    simp [List.flatMap_append, List.flatMap_cons, fileRecords]
  have h2 : (pre ++ (⟨badPath, Except.error cause⟩ : SourceFile) :: post).flatMap fileErrors =
      ["Failed to parse " ++ badPath ++ ": " ++ cause] := by
    rw [List.flatMap_append, List.flatMap_cons, hpre, hpost]
    simp [fileErrors]
  constructor
  · rw [scanFiles_eq, scanFiles_eq, h1, h2]
  · rw [scanFiles_eq]
    show (pre ++ post).flatMap fileErrors = []
    rw [List.flatMap_append, hpre, hpost]
    rfl

/-- Witness for C6: three concrete files of which the middle one is
unreadable. -/
theorem scanFiles_one_unreadable_file_witness :
    scanFiles ([(⟨"/pkg/src/Button.tsx", Except.ok buttonDefFile⟩ : SourceFile)] ++
        (⟨"/pkg/src/broken.ts", Except.error "EACCES"⟩ : SourceFile) ::
        [(⟨"/pkg/src/index.ts", Except.ok buttonBarrelFile⟩ : SourceFile)]) =
      ⟨(scanFiles ([(⟨"/pkg/src/Button.tsx", Except.ok buttonDefFile⟩ : SourceFile)] ++
          [(⟨"/pkg/src/index.ts", Except.ok buttonBarrelFile⟩ : SourceFile)])).exports,
       ["Failed to parse /pkg/src/broken.ts: EACCES"]⟩ :=
  (scanFiles_one_unreadable_file
      [⟨"/pkg/src/Button.tsx", Except.ok buttonDefFile⟩]
      [⟨"/pkg/src/index.ts", Except.ok buttonBarrelFile⟩]
      "/pkg/src/broken.ts" "EACCES"
      (by
        intro f hf
        simp only [List.mem_append, List.mem_singleton] at hf
        rcases hf with rfl | rfl
        · exact ⟨buttonDefFile, rfl⟩
        · exact ⟨buttonBarrelFile, rfl⟩)).1

/-- Claim C7: a source file containing exactly one exported declaration
each of a variable, a function, a class, an interface, a type alias and an
enum — in any order — yields exactly six records, one per declaration,
with the six corresponding kinds. -/
theorem parseFileExports_six_kinds (filePath n1 n2 n3 n4 n5 n6 : String)
    (l : List Node) (h : l.Perm (sixKindsFile n1 n2 n3 n4 n5 n6)) :
    (parseFileExports filePath l).Perm (sixKindsRecords filePath n1 n2 n3 n4 n5 n6) ∧
    (parseFileExports filePath l).length = 6 := by
  have hv : visitList filePath (sixKindsFile n1 n2 n3 n4 n5 n6) =
      sixKindsRecords filePath n1 n2 n3 n4 n5 n6 := by
    simp [sixKindsFile, sixKindsRecords, visitList, visitNode, hasModifier]
  have hp : (parseFileExports filePath l).Perm
      (sixKindsRecords filePath n1 n2 n3 n4 n5 n6) := by
    have hperm := visitList_perm filePath h
    rw [hv] at hperm
    exact hperm
  exact ⟨hp, by rw [hp.length_eq]; rfl⟩

/-- Witness for C7 at concrete names, in a shuffled declaration order. -/
theorem parseFileExports_six_kinds_witness :
    (parseFileExports "/w.ts" (sixKindsFile "a" "b" "c" "d" "e" "f")).length = 6 :=
  (parseFileExports_six_kinds "/w.ts" "a" "b" "c" "d" "e" "f"
      (sixKindsFile "a" "b" "c" "d" "e" "f") (List.Perm.refl _)).2

/-- Claim C8: a wildcard re-export statement `export * from '<module>'`
contributes no records to the parser's output — removing it from a file
leaves the parsed record sequence unchanged. -/
theorem exportStar_contributes_no_records (filePath m : String) (l₁ l₂ : List Node) :
    parseFileExports filePath (l₁ ++ Node.exportDeclaration (some m) none [] :: l₂) =
      parseFileExports filePath (l₁ ++ l₂) := by
  unfold parseFileExports
  rw [visitList_append, visitList_append]
  simp [visitList, visitNode]

/-- Claim C9: the parser never emits a record of kind `default`; every
record of kind `interface`, `type`, `enum` or `reexport` has
`isDefault = false`; and a bare `export default <expr>` statement (an
export assignment with no declaration) contributes no record at all. -/
theorem parseFileExports_no_default_kind :
    (∀ (filePath : String) (statements : List Node) (r : ExportInfo),
        r ∈ parseFileExports filePath statements → soundRecord r) ∧
    ∀ (filePath : String) (l₁ l₂ : List Node),
      parseFileExports filePath (l₁ ++ Node.exportAssignment [] :: l₂) =
        parseFileExports filePath (l₁ ++ l₂) := by
  constructor
  · intro filePath statements r h
    exact visitList_sound filePath r statements h
  · intro filePath l₁ l₂
    unfold parseFileExports
    rw [visitList_append, visitList_append]
    simp [visitList, visitNode]

/-- Witness for C9 on a concrete interface record. -/
theorem parseFileExports_no_default_kind_witness :
    soundRecord ⟨"I", "/w.ts", ExportKind.interface, false⟩ :=
  parseFileExports_no_default_kind.1 "/w.ts"
    [Node.interfaceDeclaration [Modifier.exportKeyword] "I" []]
    ⟨"I", "/w.ts", ExportKind.interface, false⟩ (by decide)

/-- Claim C10: every cache-missing `scanPackageExports` call stores its
result — whatever it is, including an empty or error-carrying one — under
the package root's key with the full 5-minute TTL, and any subsequent call
for the same root strictly inside that TTL returns the stored result
without touching the filesystem. -/
theorem scanPackageExports_stores_unconditionally
    (fsys : FileSystem) (now : Nat) (cache : Cache) (packageRoot : String)
    (hmiss : (getFromCache cache now packageRoot).1 = none) :
    cacheGet (scanPackageExports fsys now cache packageRoot).cache
        (createCacheKey packageRoot) =
      some ⟨now + CACHE_TTL_MS, (scanPackageExports fsys now cache packageRoot).result⟩ ∧
    ∀ later, later < now + CACHE_TTL_MS →
      scanPackageExports fsys later
          (scanPackageExports fsys now cache packageRoot).cache packageRoot =
        ⟨(scanPackageExports fsys now cache packageRoot).result,
         (scanPackageExports fsys now cache packageRoot).cache, false⟩ := by
  rw [scanPackageExports_of_miss hmiss]
  refine ⟨cacheGet_cacheSet_self _ _ _, ?_⟩
  intro later hlt
  exact scanPackageExports_hit (cacheGet_cacheSet_self _ _ _) hlt

/-- Witness for C10 on the package whose src tree is missing: the empty,
error-free result is cached with the full TTL. -/
theorem scanPackageExports_stores_unconditionally_witness :
    cacheGet (scanPackageExports missingSrcFs 0 [] "/pkg").cache
        (createCacheKey "/pkg") =
      some ⟨0 + CACHE_TTL_MS, (scanPackageExports missingSrcFs 0 [] "/pkg").result⟩ :=
  (scanPackageExports_stores_unconditionally missingSrcFs 0 [] "/pkg" rfl).1

end ExportScanner
